import Mathlib

/-!
Shallow embedding of the PDF-to-long-screenshot pipeline core:
the boundary detector, page normalizer (renderer.py) and canvas
compositor (compositor.py), with theorems checking the specification's
claims against the embedded code.

Pixels are RGB triples of naturals; an `Image` is a width, a height and
a total pixel function (reads outside the rectangle are never observed
by the embedded algorithms, which scan only in-bounds coordinates).
-/

namespace PdfLong

/-- An RGB pixel, one 8-bit channel per component (modelled as `Nat`). -/
structure Pixel where
  r : Nat
  g : Nat
  b : Nat
deriving Repr, DecidableEq

/-- PIL image modes relevant to the pipeline: `RGB`, `RGBA`, and a
catch-all for every other mode. -/
inductive Mode where
  | RGB
  | RGBA
  | Other
deriving Repr, DecidableEq

/-- An in-memory bitmap: mode, dimensions, RGB view of the pixels, and
an alpha channel (meaningful only when `mode = RGBA`). -/
structure Image where
  mode : Mode
  width : Nat
  height : Nat
  pixel : Nat → Nat → Pixel
  alpha : Nat → Nat → Nat

/-- `Image.new (w, h) color` — an all-`color` RGB bitmap (PIL `Image.new`). -/
def Image.new (w h : Nat) (color : Pixel) : Image :=
  ⟨Mode.RGB, w, h, fun _ _ => color, fun _ _ => 255⟩

/-- `image.crop((l, t, r, b))` — the rectangle `[l, r) × [t, b)` as a new
bitmap; pixel `(x, y)` of the result is pixel `(x + l, y + t)` of the
original. -/
def Image.cropBox (img : Image) (l t r b : Nat) : Image :=
  { mode := img.mode
    width := r - l
    height := b - t
    pixel := fun x y => img.pixel (x + l) (y + t)
    alpha := fun x y => img.alpha (x + l) (y + t) }

/-- `image.convert('RGB')` — identity on images already in RGB mode; for
other modes, the RGB view of the pixels is kept and the mode is set to
RGB. -/
def convertRGB (img : Image) : Image :=
  match img.mode with
  | Mode.RGB => img
  | _ => { img with mode := Mode.RGB }

/-- `PDFRenderer._is_white_pixel`: a pixel is (near-)white when every
RGB channel strictly exceeds the threshold. -/
def isWhitePixel (p : Pixel) (threshold : Nat) : Bool :=
  decide (threshold < p.r) && decide (threshold < p.g) && decide (threshold < p.b)

/-- Linear upward scan `for x in range(start, start + fuel)` returning the
first `x` with `p x`, as used by the left/top boundary loops. -/
def findFrom (p : Nat → Bool) : Nat → Nat → Option Nat
  | _, 0 => none
  | s, fuel + 1 => if p s then some s else findFrom p (s + 1) fuel

/-- Linear downward scan `for x in range(start, start - fuel, -1)`
returning the first `x` with `p x`, as used by the right/bottom boundary
loops. -/
def findDown (p : Nat → Bool) : Nat → Nat → Option Nat
  | _, 0 => none
  | s, fuel + 1 => if p s then some s else findDown p (s - 1) fuel

/-- Column `x` contains at least one non-white pixel (the inner
`for y in range(height)` loop of the column scans). -/
def colNonWhite (img : Image) (x : Nat) : Bool :=
  (List.range img.height).any fun y => !isWhitePixel (img.pixel x y) 250

/-- Row `y` contains at least one non-white pixel (the inner
`for x in range(width)` loop of the row scans). -/
def rowNonWhite (img : Image) (y : Nat) : Bool :=
  (List.range img.width).any fun x => !isWhitePixel (img.pixel x y) 250

/-- `PDFRenderer._find_left_boundary`: first column containing a
non-white pixel, scanning left to right; `0` when all columns are white. -/
def findLeftBoundary (img : Image) : Nat :=
  (findFrom (colNonWhite img) 0 img.width).getD 0

/-- `PDFRenderer._find_right_boundary`: one past the last column
containing a non-white pixel, scanning right to left; `width` when all
columns are white. -/
def findRightBoundary (img : Image) : Nat :=
  match findDown (colNonWhite img) (img.width - 1) img.width with
  | some x => x + 1
  | none => img.width

/-- `PDFRenderer._find_top_boundary`: first row containing a non-white
pixel, scanning top to bottom; `0` when all rows are white. -/
def findTopBoundary (img : Image) : Nat :=
  (findFrom (rowNonWhite img) 0 img.height).getD 0

/-- `PDFRenderer._find_bottom_boundary`: one past the last row containing
a non-white pixel, scanning bottom to top; `height` when all rows are
white. -/
def findBottomBoundary (img : Image) : Nat :=
  match findDown (rowNonWhite img) (img.height - 1) img.height with
  | some y => y + 1
  | none => img.height

/-- The renderer's configuration (`PDFRenderer.__init__`). -/
structure Renderer where
  dpi : Nat
  auto_crop : Bool
  crop_margin : Nat

/-- `PDFRenderer._crop_whitespace`: detect the content box, expand it by
`crop_margin` clamped to the bitmap's bounds, and crop when the clamped
box has positive area; otherwise return the bitmap unchanged. -/
def cropWhitespace (rd : Renderer) (image : Image) : Image :=
  let image := convertRGB image
  let left := findLeftBoundary image
  let right := findRightBoundary image
  let top := findTopBoundary image
  let bottom := findBottomBoundary image
  let left := left - rd.crop_margin
  let right := min image.width (right + rd.crop_margin)
  let top := top - rd.crop_margin
  let bottom := min image.height (bottom + rd.crop_margin)
  if left < right ∧ top < bottom then image.cropBox left top right bottom
  else image

/-- Alpha blend of a source pixel over opaque white,
`out = (alpha * src + (255 - alpha) * 255) / 255` per channel
(PIL `paste` with the alpha channel as mask). -/
def blendOverWhite (p : Pixel) (a : Nat) : Pixel :=
  ⟨(p.r * a + 255 * (255 - a)) / 255,
   (p.g * a + 255 * (255 - a)) / 255,
   (p.b * a + 255 * (255 - a)) / 255⟩

/-- Flatten an RGBA bitmap over an opaque white background: same
dimensions, RGB mode, alpha-weighted blend of every pixel with white. -/
def flattenWhite (img : Image) : Image :=
  { mode := Mode.RGB
    width := img.width
    height := img.height
    pixel := fun x y => blendOverWhite (img.pixel x y) (img.alpha x y)
    alpha := fun _ _ => 255 }

/-- `PDFRenderer._ensure_white_background`: RGBA bitmaps are composited
over white, other non-RGB modes are converted to RGB, RGB bitmaps pass
through unchanged. -/
def ensureWhiteBackground (img : Image) : Image :=
  match img.mode with
  | Mode.RGBA => flattenWhite img
  | Mode.RGB => img
  | Mode.Other => convertRGB img

/-- One iteration of the `render_pages` loop body: flatten, then crop
whitespace when `auto_crop` is set. -/
def processPage (rd : Renderer) (image : Image) : Image :=
  let processed := ensureWhiteBackground image
  if rd.auto_crop then cropWhitespace rd processed else processed

/-- The `render_pages` processing loop over already-rasterized pages:
returns the processed pages together with the ordered list of
`(current_page, total_pages)` progress-callback invocations. -/
def renderLoopAux (rd : Renderer) (total : Nat) : Nat → List Image → List Image × List (Nat × Nat)
  | _, [] => ([], [])
  | idx, image :: rest =>
    let processed := processPage rd image
    let r := renderLoopAux rd total (idx + 1) rest
    (processed :: r.1, (idx, total) :: r.2)

/-- `PDFRenderer.render_pages` after the external rasterizer has produced
the raw page list: process each page in order, 1-indexed progress calls. -/
def renderPagesFromImages (rd : Renderer) (images : List Image) :
    List Image × List (Nat × Nat) :=
  renderLoopAux rd images.length 1 images

/-- Errors of the pipeline (`exceptions.py`): the two kinds the core can
signal. -/
inductive PdfError where
  | compositionError (msg : String)
  | renderingError (msg : String)
deriving Repr, DecidableEq

/-- The compositor's configuration (`ImageCompositor.__init__`). -/
structure Compositor where
  spacing : Nat
  auto_width : Bool

/-- `max(img.width for img in images)` (0 on the empty list, which the
compositor never reaches). -/
def maxWidth : List Image → Nat
  | [] => 0
  | img :: rest => max img.width (maxWidth rest)

/-- Canvas height: `sum(img.height for img in images)` plus
`spacing * (len(images) - 1)` when there is more than one page
(`_calculate_canvas_size` and the identical computation in
`_compose_auto_width`). -/
def totalHeightCalc (spacing : Nat) (images : List Image) : Nat :=
  let t := (images.map Image.height).sum
  if 1 < images.length then t + spacing * (images.length - 1) else t

/-- `ImageCompositor._calculate_canvas_size`: `(max width, total height)`. -/
def calculateCanvasSize (c : Compositor) (images : List Image) : Nat × Nat :=
  (maxWidth images, totalHeightCalc c.spacing images)

/-- `canvas.paste(image, (x0, y0))`: inside the pasted rectangle the
result shows the pasted image, elsewhere the canvas; canvas dimensions
are unchanged. -/
def pasteImg (canvas img : Image) (x0 y0 : Nat) : Image :=
  { canvas with
    pixel := fun x y =>
      if x0 ≤ x ∧ x < x0 + img.width ∧ y0 ≤ y ∧ y < y0 + img.height then
        img.pixel (x - x0) (y - y0)
      else canvas.pixel x y }

/-- The paste loop shared by both composers: paste each page at the
x-offset computed by `off` from the canvas width and the page, advancing
the vertical cursor by the page height plus the spacing. -/
def pasteLoop (spacing : Nat) (off : Nat → Image → Nat) :
    Image → List Image → Nat → Image
  | canvas, [], _ => canvas
  | canvas, img :: rest, y0 =>
    pasteLoop spacing off (pasteImg canvas img (off canvas.width img) y0) rest
      (y0 + img.height + spacing)

/-- `ImageCompositor._find_actual_width`: scan columns right to left for
the first non-white one and return one past it; `1` when the whole canvas
is white. -/
def findActualWidth (image : Image) : Nat :=
  let image := convertRGB image
  match findDown (colNonWhite image) (image.width - 1) image.width with
  | some x => x + 1
  | none => 1

/-- `ImageCompositor._compose_auto_width`: white canvas of the maximum
page width, pages pasted flush-left, then the width trimmed to the
rightmost non-white column when that is narrower than the canvas. -/
def composeAutoWidth (c : Compositor) (images : List Image) : Image :=
  let total_height := totalHeightCalc c.spacing images
  let max_width := maxWidth images
  let canvas := Image.new max_width total_height ⟨255, 255, 255⟩
  let canvas := pasteLoop c.spacing (fun _ _ => 0) canvas images 0
  let actual_width := findActualWidth canvas
  if actual_width < max_width then canvas.cropBox 0 0 actual_width total_height
  else canvas

/-- `ImageCompositor._compose_fixed_width`: white canvas of the maximum
page width, every page pasted horizontally centered
(`x_offset = (canvas_width - page_width) // 2`). -/
def composeFixedWidth (c : Compositor) (images : List Image) : Image :=
  let size := calculateCanvasSize c images
  let canvas := Image.new size.1 size.2 ⟨255, 255, 255⟩
  pasteLoop c.spacing (fun w img => (w - img.width) / 2) canvas images 0

/-- `ImageCompositor.compose`: error on an empty page list, otherwise
dispatch on the width policy. -/
def compose (c : Compositor) (images : List Image) : Except PdfError Image :=
  if images.isEmpty then
    Except.error (PdfError.compositionError "Cannot compose empty image list")
  else if c.auto_width then Except.ok (composeAutoWidth c images)
  else Except.ok (composeFixedWidth c images)

/-- Vertical position of the top of page `i` inside the composed canvas:
the value of the loop's `y_offset` when page `i` is pasted (relative to
the starting offset). -/
def bandTop (spacing : Nat) : List Image → Nat → Nat
  | _, 0 => 0
  | [], _ + 1 => 0
  | img :: rest, i + 1 => img.height + spacing + bandTop spacing rest i

/-- Opaque white pixel. -/
def whitePix : Pixel := ⟨255, 255, 255⟩

/-- A dark "ink" pixel (clearly non-background). -/
def inkPix : Pixel := ⟨30, 30, 30⟩

/-- A saturated red pixel. -/
def redPix : Pixel := ⟨200, 16, 16⟩

/-- A saturated green pixel. -/
def greenPix : Pixel := ⟨16, 200, 16⟩

/-- A saturated blue pixel. -/
def bluePix : Pixel := ⟨16, 16, 200⟩

/-- A `w × h` RGB bitmap filled with one color. -/
def solidImage (w h : Nat) (c : Pixel) : Image :=
  ⟨Mode.RGB, w, h, fun _ _ => c, fun _ _ => 255⟩

/-- A 3×3 white bitmap with a single ink dot at `(1, 1)`. -/
def dotImage : Image :=
  ⟨Mode.RGB, 3, 3, fun x y => if x = 1 ∧ y = 1 then inkPix else whitePix,
   fun _ _ => 255⟩

/-- The three-page scenario from the specification: widths
`[100, 150, 80]`, heights `[50, 60, 40]`. -/
def pagesDemo : List Image :=
  [solidImage 100 50 redPix, solidImage 150 60 greenPix, solidImage 80 40 bluePix]

theorem findFrom_some (p : Nat → Bool) :
    ∀ (fuel s x : Nat), findFrom p s fuel = some x →
      p x = true ∧ s ≤ x ∧ x < s + fuel ∧ ∀ z, s ≤ z → z < x → p z = false := by
  intro fuel
  induction fuel with
  | zero => intro s x h; simp [findFrom] at h
  | succ n ih =>
    intro s x h
    rw [findFrom] at h
    cases hp : p s with
    | true =>
      rw [hp] at h
      simp only [if_true] at h
      cases h
      exact ⟨hp, Nat.le_refl s, by omega, fun z hz1 hz2 => absurd hz1 (by omega)⟩
    | false =>
      rw [hp] at h
      simp only [Bool.false_eq_true, if_false] at h
      obtain ⟨h1, h2, h3, h4⟩ := ih (s + 1) x h
      refine ⟨h1, by omega, by omega, fun z hz1 hz2 => ?_⟩
      rcases Nat.eq_or_lt_of_le hz1 with heq | hlt
      · rw [← heq]; exact hp
      · exact h4 z hlt hz2

theorem findFrom_none (p : Nat → Bool) :
    ∀ (fuel s : Nat), findFrom p s fuel = none →
      ∀ z, s ≤ z → z < s + fuel → p z = false := by
  intro fuel
  induction fuel with
  | zero => intro s _ z hz1 hz2; omega
  | succ n ih =>
    intro s h z hz1 hz2
    rw [findFrom] at h
    cases hp : p s with
    | true => rw [hp] at h; simp at h
    | false =>
      rw [hp] at h
      simp only [Bool.false_eq_true, if_false] at h
      rcases Nat.eq_or_lt_of_le hz1 with heq | hlt
      · rw [← heq]; exact hp
      · exact ih (s + 1) h z hlt (by omega)

theorem findFrom_of_content (p : Nat → Bool) (fuel s x : Nat)
    (hx : p x = true) (h1 : s ≤ x) (h2 : x < s + fuel) :
    ∃ y, findFrom p s fuel = some y := by
  cases h : findFrom p s fuel with
  | none => exact absurd (findFrom_none p fuel s h x h1 h2) (by simp [hx])
  | some y => exact ⟨y, rfl⟩

theorem findDown_some (p : Nat → Bool) :
    ∀ (fuel s x : Nat), findDown p s fuel = some x →
      p x = true ∧ x ≤ s ∧ ∀ z, x < z → z ≤ s → p z = false := by
  intro fuel
  induction fuel with
  | zero => intro s x h; simp [findDown] at h
  | succ n ih =>
    intro s x h
    rw [findDown] at h
    cases hp : p s with
    | true =>
      rw [hp] at h
      simp only [if_true] at h
      cases h
      exact ⟨hp, Nat.le_refl s, fun z hz1 hz2 => absurd hz1 (by omega)⟩
    | false =>
      rw [hp] at h
      simp only [Bool.false_eq_true, if_false] at h
      obtain ⟨h1, h2, h3⟩ := ih (s - 1) x h
      refine ⟨h1, by omega, fun z hz1 hz2 => ?_⟩
      rcases Nat.eq_or_lt_of_le hz2 with heq | hlt
      · rw [heq]; exact hp
      · exact h3 z hz1 (by omega)

theorem findDown_none (p : Nat → Bool) :
    ∀ (fuel s : Nat), findDown p s fuel = none →
      ∀ z, z ≤ s → s < z + fuel → p z = false := by
  intro fuel
  induction fuel with
  | zero => intro s _ z hz1 hz2; omega
  | succ n ih =>
    intro s h z hz1 hz2
    rw [findDown] at h
    cases hp : p s with
    | true => rw [hp] at h; simp at h
    | false =>
      rw [hp] at h
      simp only [Bool.false_eq_true, if_false] at h
      rcases Nat.eq_or_lt_of_le hz1 with heq | hlt
      · rw [heq]; exact hp
      · exact ih (s - 1) h z (by omega) (by omega)

theorem colNonWhite_iff (img : Image) (x : Nat) :
    colNonWhite img x = true ↔
      ∃ y, y < img.height ∧ isWhitePixel (img.pixel x y) 250 = false := by
  simp [colNonWhite, List.any_eq_true, List.mem_range]

theorem rowNonWhite_iff (img : Image) (y : Nat) :
    rowNonWhite img y = true ↔
      ∃ x, x < img.width ∧ isWhitePixel (img.pixel x y) 250 = false := by
  simp [rowNonWhite, List.any_eq_true, List.mem_range]

theorem convertRGB_width (img : Image) : (convertRGB img).width = img.width := by
  unfold convertRGB; cases img.mode <;> rfl

theorem convertRGB_height (img : Image) : (convertRGB img).height = img.height := by
  unfold convertRGB; cases img.mode <;> rfl

theorem convertRGB_pixel (img : Image) : (convertRGB img).pixel = img.pixel := by
  unfold convertRGB; cases img.mode <;> rfl

theorem convertRGB_rgb (img : Image) (h : img.mode = Mode.RGB) :
    convertRGB img = img := by
  unfold convertRGB; rw [h]

theorem pasteLoop_width (s : Nat) (off : Nat → Image → Nat) :
    ∀ (l : List Image) (canvas : Image) (y0 : Nat),
      (pasteLoop s off canvas l y0).width = canvas.width := by
  intro l
  induction l with
  | nil => intro canvas y0; rfl
  | cons img rest ih => intro canvas y0; rw [pasteLoop, ih]; rfl

theorem pasteLoop_height (s : Nat) (off : Nat → Image → Nat) :
    ∀ (l : List Image) (canvas : Image) (y0 : Nat),
      (pasteLoop s off canvas l y0).height = canvas.height := by
  intro l
  induction l with
  | nil => intro canvas y0; rfl
  | cons img rest ih => intro canvas y0; rw [pasteLoop, ih]; rfl

theorem pasteLoop_mode (s : Nat) (off : Nat → Image → Nat) :
    ∀ (l : List Image) (canvas : Image) (y0 : Nat),
      (pasteLoop s off canvas l y0).mode = canvas.mode := by
  intro l
  induction l with
  | nil => intro canvas y0; rfl
  | cons img rest ih => intro canvas y0; rw [pasteLoop, ih]; rfl

theorem pasteLoop_pixel_above (s : Nat) (off : Nat → Image → Nat) :
    ∀ (l : List Image) (canvas : Image) (y0 x y : Nat), y < y0 →
      (pasteLoop s off canvas l y0).pixel x y = canvas.pixel x y := by
  intro l
  induction l with
  | nil => intro canvas y0 x y _; rfl
  | cons img rest ih =>
    intro canvas y0 x y hy
    rw [pasteLoop, ih _ _ x y (by omega)]
    have hout : ¬(off canvas.width img ≤ x ∧ x < off canvas.width img + img.width ∧
        y0 ≤ y ∧ y < y0 + img.height) := by omega
    simp [pasteImg, hout]

theorem pasteLoop_band_pixel (s : Nat) (off : Nat → Image → Nat) :
    ∀ (l : List Image) (canvas : Image) (y0 i : Nat) (hi : i < l.length)
      (dx dy : Nat), dx < (l.get ⟨i, hi⟩).width → dy < (l.get ⟨i, hi⟩).height →
      (pasteLoop s off canvas l y0).pixel
          (off canvas.width (l.get ⟨i, hi⟩) + dx) (y0 + bandTop s l i + dy)
        = (l.get ⟨i, hi⟩).pixel dx dy := by
  intro l
  induction l with
  | nil => intro _ _ i hi; exact absurd hi (by simp)
  | cons img rest ih =>
    intro canvas y0 i hi dx dy hdx hdy
    cases i with
    | zero =>
      simp only [List.get] at hdx hdy ⊢
      rw [pasteLoop]
      rw [pasteLoop_pixel_above s off rest _ _ _ _ (by simp [bandTop]; omega)]
      have hin : off canvas.width img ≤ off canvas.width img + dx ∧
          off canvas.width img + dx < off canvas.width img + img.width ∧
          y0 ≤ y0 + bandTop s (img :: rest) 0 + dy ∧
          y0 + bandTop s (img :: rest) 0 + dy < y0 + img.height := by
        simp [bandTop]; omega
      simp only [pasteImg, hin, if_true, and_true]
      have hx : off canvas.width img + dx - off canvas.width img = dx := by omega
      have hy : y0 + bandTop s (img :: rest) 0 + dy - y0 = dy := by
        simp [bandTop]
      rw [hx, hy]
    | succ j =>
      simp only [List.get] at hdx hdy ⊢
      rw [pasteLoop]
      have harg : y0 + bandTop s (img :: rest) (j + 1) + dy =
          (y0 + img.height + s) + bandTop s rest j + dy := by
        simp [bandTop]; omega
      rw [harg]
      exact ih (pasteImg canvas img (off canvas.width img) y0)
        (y0 + img.height + s) j (by simpa using hi) dx dy hdx hdy

theorem width_le_maxWidth :
    ∀ (l : List Image) (i : Nat) (hi : i < l.length),
      (l.get ⟨i, hi⟩).width ≤ maxWidth l := by
  intro l
  induction l with
  | nil => intro i hi; simp at hi
  | cons img rest ih =>
    intro i hi
    cases i with
    | zero => exact Nat.le_max_left _ _
    | succ j =>
      exact Nat.le_trans (ih j (by simpa using hi)) (Nat.le_max_right _ _)

theorem totalHeightCalc_eq (s : Nat) (l : List Image) :
    totalHeightCalc s l = (l.map Image.height).sum + s * (l.length - 1) := by
  unfold totalHeightCalc
  by_cases h : 1 < l.length
  · simp [h]
  · have h1 : l.length - 1 = 0 := by omega
    simp [h, h1]

theorem bandTop_add_height_le (s : Nat) :
    ∀ (l : List Image) (i : Nat) (hi : i < l.length),
      bandTop s l i + (l.get ⟨i, hi⟩).height ≤ totalHeightCalc s l := by
  intro l
  induction l with
  | nil => intro i hi; simp at hi
  | cons img rest ih =>
    intro i hi
    rw [totalHeightCalc_eq]
    cases i with
    | zero =>
      simp only [List.get, bandTop, List.map_cons, List.sum_cons]
      have : (0:Nat) ≤ (rest.map Image.height).sum + s * ((img :: rest).length - 1) :=
        Nat.zero_le _
      omega
    | succ j =>
      have hj : j < rest.length := by simpa using hi
      have hih := ih j hj
      rw [totalHeightCalc_eq] at hih
      simp only [List.get, bandTop, List.map_cons, List.sum_cons, List.length_cons]
      have hlen : 1 ≤ rest.length := by omega
      have hmul : s * ((rest.length - 1) + 1) = s * (rest.length - 1) + s :=
        Nat.mul_succ s (rest.length - 1)
      have hlen2 : s * (rest.length + 1 - 1) = s * ((rest.length - 1) + 1) := by
        congr 1; omega
      omega

theorem findFrom_first (p : Nat → Bool) (s fuel : Nat) (hp : p s = true)
    (hf : 0 < fuel) : findFrom p s fuel = some s := by
  cases fuel with
  | zero => omega
  | succ n => rw [findFrom, hp]; simp

theorem findDown_first (p : Nat → Bool) (s fuel : Nat) (hp : p s = true)
    (hf : 0 < fuel) : findDown p s fuel = some s := by
  cases fuel with
  | zero => omega
  | succ n => rw [findDown, hp]; simp

theorem cropBox_width (img : Image) (l t r b : Nat) :
    (img.cropBox l t r b).width = r - l := rfl

theorem cropBox_height (img : Image) (l t r b : Nat) :
    (img.cropBox l t r b).height = b - t := rfl

theorem cropBox_pixel (img : Image) (l t r b x y : Nat) :
    (img.cropBox l t r b).pixel x y = img.pixel (x + l) (y + t) := rfl

theorem cropBox_self (img : Image) :
    img.cropBox 0 0 img.width img.height = img := rfl

/-- Specification of the four boundary scans on a bitmap with at least
one non-white pixel: the box they return is non-degenerate, within
bounds, encloses every non-white pixel, and its four border rows/columns
each contain a non-white pixel. -/
theorem boundary_box_spec (img : Image)
    (hc : ∃ x, x < img.width ∧ ∃ y, y < img.height ∧
      isWhitePixel (img.pixel x y) 250 = false) :
    colNonWhite img (findLeftBoundary img) = true ∧
    colNonWhite img (findRightBoundary img - 1) = true ∧
    rowNonWhite img (findTopBoundary img) = true ∧
    rowNonWhite img (findBottomBoundary img - 1) = true ∧
    findLeftBoundary img < findRightBoundary img ∧
    findRightBoundary img ≤ img.width ∧
    findTopBoundary img < findBottomBoundary img ∧
    findBottomBoundary img ≤ img.height ∧
    (∀ x, x < img.width → ∀ y, y < img.height →
      isWhitePixel (img.pixel x y) 250 = false →
      findLeftBoundary img ≤ x ∧ x < findRightBoundary img ∧
      findTopBoundary img ≤ y ∧ y < findBottomBoundary img) := by
  obtain ⟨x0, hx0, y0, hy0, hw0⟩ := hc
  have hcol0 : colNonWhite img x0 = true := (colNonWhite_iff img x0).mpr ⟨y0, hy0, hw0⟩
  have hrow0 : rowNonWhite img y0 = true := (rowNonWhite_iff img y0).mpr ⟨x0, hx0, hw0⟩
  have hwpos : 0 < img.width := by omega
  have hhpos : 0 < img.height := by omega
  obtain ⟨xl, hxl⟩ := findFrom_of_content (colNonWhite img) img.width 0 x0 hcol0
    (Nat.zero_le x0) (by omega)
  obtain ⟨hxlp, _, hxlw, hxlmin⟩ := findFrom_some (colNonWhite img) img.width 0 xl hxl
  obtain ⟨yt, hyt⟩ := findFrom_of_content (rowNonWhite img) img.height 0 y0 hrow0
    (Nat.zero_le y0) (by omega)
  obtain ⟨hytp, _, hyth, hytmin⟩ := findFrom_some (rowNonWhite img) img.height 0 yt hyt
  have hLdef : findLeftBoundary img = xl := by rw [findLeftBoundary, hxl]; rfl
  have hTdef : findTopBoundary img = yt := by rw [findTopBoundary, hyt]; rfl
  cases hxr : findDown (colNonWhite img) (img.width - 1) img.width with
  | none =>
    exact absurd (findDown_none (colNonWhite img) img.width (img.width - 1) hxr x0
      (by omega) (by omega)) (by simp [hcol0])
  | some xr =>
  cases hyb : findDown (rowNonWhite img) (img.height - 1) img.height with
  | none =>
    exact absurd (findDown_none (rowNonWhite img) img.height (img.height - 1) hyb y0
      (by omega) (by omega)) (by simp [hrow0])
  | some yb =>
  obtain ⟨hxrp, hxrw, hxrmax⟩ := findDown_some (colNonWhite img) img.width (img.width - 1) xr hxr
  obtain ⟨hybp, hybh, hybmax⟩ := findDown_some (rowNonWhite img) img.height (img.height - 1) yb hyb
  have hRdef : findRightBoundary img = xr + 1 := by rw [findRightBoundary, hxr]
  have hBdef : findBottomBoundary img = yb + 1 := by rw [findBottomBoundary, hyb]
  have hbox : ∀ x, x < img.width → ∀ y, y < img.height →
      isWhitePixel (img.pixel x y) 250 = false →
      xl ≤ x ∧ x < xr + 1 ∧ yt ≤ y ∧ y < yb + 1 := by
    intro x hx y hy hw
    have hcx : colNonWhite img x = true := (colNonWhite_iff img x).mpr ⟨y, hy, hw⟩
    have hry : rowNonWhite img y = true := (rowNonWhite_iff img y).mpr ⟨x, hx, hw⟩
    refine ⟨?_, ?_, ?_, ?_⟩
    · by_contra hlt
      exact absurd (hxlmin x (Nat.zero_le x) (by omega)) (by simp [hcx])
    · by_contra hgt
      exact absurd (hxrmax x (by omega) (by omega)) (by simp [hcx])
    · by_contra hlt
      exact absurd (hytmin y (Nat.zero_le y) (by omega)) (by simp [hry])
    · by_contra hgt
      exact absurd (hybmax y (by omega) (by omega)) (by simp [hry])
  have hxlxr : xl < xr + 1 := by
    obtain ⟨yy, hyy, hww⟩ := (colNonWhite_iff img xl).mp hxlp
    exact (hbox xl (by omega) yy hyy hww).2.1
  have hytyb : yt < yb + 1 := by
    obtain ⟨xx, hxx, hww⟩ := (rowNonWhite_iff img yt).mp hytp
    exact (hbox xx hxx yt (by omega) hww).2.2.2
  rw [hLdef, hTdef, hRdef, hBdef]
  have hsub : xr + 1 - 1 = xr := by omega
  have hsub2 : yb + 1 - 1 = yb := by omega
  rw [hsub, hsub2]
  exact ⟨hxlp, hxrp, hytp, hybp, hxlxr, by omega, hytyb, by omega, hbox⟩

theorem cropWhitespace_width_le (rd : Renderer) (img : Image) :
    (cropWhitespace rd img).width ≤ img.width := by
  have hw := convertRGB_width img
  simp only [cropWhitespace]
  split_ifs with h
  · rw [cropBox_width]
    have hmin : min (convertRGB img).width
        (findRightBoundary (convertRGB img) + rd.crop_margin)
        ≤ (convertRGB img).width := Nat.min_le_left _ _
    omega
  · omega

theorem cropWhitespace_height_le (rd : Renderer) (img : Image) :
    (cropWhitespace rd img).height ≤ img.height := by
  have hh := convertRGB_height img
  simp only [cropWhitespace]
  split_ifs with h
  · rw [cropBox_height]
    have hmin : min (convertRGB img).height
        (findBottomBoundary (convertRGB img) + rd.crop_margin)
        ≤ (convertRGB img).height := Nat.min_le_left _ _
    omega
  · omega

theorem cropWhitespace_dims_pos (rd : Renderer) (img : Image)
    (hwp : 1 ≤ img.width) (hhp : 1 ≤ img.height) :
    1 ≤ (cropWhitespace rd img).width ∧ 1 ≤ (cropWhitespace rd img).height := by
  have hw := convertRGB_width img
  have hh := convertRGB_height img
  simp only [cropWhitespace]
  split_ifs with h
  · obtain ⟨h1, h2⟩ := h
    rw [cropBox_width, cropBox_height]
    exact ⟨by omega, by omega⟩
  · exact ⟨by omega, by omega⟩

theorem cropWhitespace_allWhite (rd : Renderer) (img : Image)
    (hmode : img.mode = Mode.RGB)
    (hw : ∀ x, x < img.width → ∀ y, y < img.height →
      isWhitePixel (img.pixel x y) 250 = true) :
    cropWhitespace rd img = img := by
  have hcv : convertRGB img = img := convertRGB_rgb img hmode
  have hcol : ∀ x, x < img.width → colNonWhite img x = false := by
    intro x hx
    cases hcw : colNonWhite img x with
    | false => rfl
    | true =>
      obtain ⟨y, hy, hwp⟩ := (colNonWhite_iff img x).mp hcw
      exact absurd (hw x hx y hy) (by simp [hwp])
  have hrow : ∀ y, y < img.height → rowNonWhite img y = false := by
    intro y hy
    cases hrw : rowNonWhite img y with
    | false => rfl
    | true =>
      obtain ⟨x, hx, hwp⟩ := (rowNonWhite_iff img y).mp hrw
      exact absurd (hw x hx y hy) (by simp [hwp])
  have hL : findLeftBoundary img = 0 := by
    rw [findLeftBoundary]
    cases hF : findFrom (colNonWhite img) 0 img.width with
    | none => rfl
    | some x =>
      obtain ⟨hp, _, hxw, _⟩ := findFrom_some _ _ _ _ hF
      exact absurd (hcol x (by omega)) (by simp [hp])
  have hT : findTopBoundary img = 0 := by
    rw [findTopBoundary]
    cases hF : findFrom (rowNonWhite img) 0 img.height with
    | none => rfl
    | some y =>
      obtain ⟨hp, _, hyh, _⟩ := findFrom_some _ _ _ _ hF
      exact absurd (hrow y (by omega)) (by simp [hp])
  have hR : findRightBoundary img = img.width := by
    rw [findRightBoundary]
    cases hF : findDown (colNonWhite img) (img.width - 1) img.width with
    | none => rfl
    | some x =>
      have hw0 : 0 < img.width := by
        by_contra h0
        have hz : img.width = 0 := by omega
        rw [hz] at hF
        simp [findDown] at hF
      obtain ⟨hp, hxle, _⟩ := findDown_some _ _ _ _ hF
      exact absurd (hcol x (by omega)) (by simp [hp])
  have hB : findBottomBoundary img = img.height := by
    rw [findBottomBoundary]
    cases hF : findDown (rowNonWhite img) (img.height - 1) img.height with
    | none => rfl
    | some y =>
      have hh0 : 0 < img.height := by
        by_contra h0
        have hz : img.height = 0 := by omega
        rw [hz] at hF
        simp [findDown] at hF
      obtain ⟨hp, hyle, _⟩ := findDown_some _ _ _ _ hF
      exact absurd (hrow y (by omega)) (by simp [hp])
  simp only [cropWhitespace, hcv, hL, hT, hR, hB, Nat.zero_sub]
  have hminw : min img.width (img.width + rd.crop_margin) = img.width :=
    Nat.min_eq_left (Nat.le_add_right _ _)
  have hminh : min img.height (img.height + rd.crop_margin) = img.height :=
    Nat.min_eq_left (Nat.le_add_right _ _)
  rw [hminw, hminh]
  split_ifs with h
  · exact cropBox_self img
  · rfl

theorem cropWhitespace_content_eq (rd : Renderer) (img : Image)
    (hm : rd.crop_margin = 0) (hmode : img.mode = Mode.RGB)
    (hc : ∃ x, x < img.width ∧ ∃ y, y < img.height ∧
      isWhitePixel (img.pixel x y) 250 = false) :
    cropWhitespace rd img =
      img.cropBox (findLeftBoundary img) (findTopBoundary img)
        (findRightBoundary img) (findBottomBoundary img) := by
  obtain ⟨_, _, _, _, hLR, hRW, hTB, hBH, _⟩ := boundary_box_spec img hc
  have hcv : convertRGB img = img := convertRGB_rgb img hmode
  simp only [cropWhitespace, hcv, hm, Nat.sub_zero, Nat.add_zero]
  have hminw : min img.width (findRightBoundary img) = findRightBoundary img :=
    Nat.min_eq_right hRW
  have hminh : min img.height (findBottomBoundary img) = findBottomBoundary img :=
    Nat.min_eq_right hBH
  rw [hminw, hminh, if_pos ⟨hLR, hTB⟩]

theorem pasteImg_allWhite (canvas img : Image) (x0 y0 : Nat)
    (hcv : ∀ x y, isWhitePixel (canvas.pixel x y) 250 = true)
    (himg : ∀ x, x < img.width → ∀ y, y < img.height →
      isWhitePixel (img.pixel x y) 250 = true) :
    ∀ x y, isWhitePixel ((pasteImg canvas img x0 y0).pixel x y) 250 = true := by
  intro x y
  simp only [pasteImg]
  split_ifs with h
  · exact himg (x - x0) (by omega) (y - y0) (by omega)
  · exact hcv x y

theorem pasteLoop_allWhite (s : Nat) (off : Nat → Image → Nat) :
    ∀ (l : List Image) (canvas : Image) (y0 : Nat),
      (∀ x y, isWhitePixel (canvas.pixel x y) 250 = true) →
      (∀ im ∈ l, ∀ x, x < im.width → ∀ y, y < im.height →
        isWhitePixel (im.pixel x y) 250 = true) →
      ∀ x y, isWhitePixel ((pasteLoop s off canvas l y0).pixel x y) 250 = true := by
  intro l
  induction l with
  | nil => intro canvas y0 hcv _ x y; exact hcv x y
  | cons img rest ih =>
    intro canvas y0 hcv hl x y
    rw [pasteLoop]
    exact ih _ _
      (pasteImg_allWhite canvas img _ y0 hcv (hl img (List.mem_cons_self img rest)))
      (fun im hm => hl im (List.mem_cons_of_mem img hm)) x y

/-- C1: for every non-empty page list, both AutoWidth and FixedWidth
composition produce a canvas whose height is the sum of the page heights
plus `spacing * (N - 1)`; for a single page this is that page's height. -/
theorem compose_height_eq (c : Compositor) (img : Image) (rest : List Image) :
    ((composeAutoWidth c (img :: rest)).height =
        ((img :: rest).map Image.height).sum +
          c.spacing * ((img :: rest).length - 1) ∧
      (composeFixedWidth c (img :: rest)).height =
        ((img :: rest).map Image.height).sum +
          c.spacing * ((img :: rest).length - 1)) ∧
    (rest = [] →
      (composeAutoWidth c (img :: rest)).height = img.height ∧
      (composeFixedWidth c (img :: rest)).height = img.height) := by
  have hauto : (composeAutoWidth c (img :: rest)).height =
      totalHeightCalc c.spacing (img :: rest) := by
    simp only [composeAutoWidth]
    split_ifs with h
    · rw [cropBox_height, Nat.sub_zero]
    · rw [pasteLoop_height]; rfl
  have hfix : (composeFixedWidth c (img :: rest)).height =
      totalHeightCalc c.spacing (img :: rest) := by
    simp only [composeFixedWidth, calculateCanvasSize]
    rw [pasteLoop_height]; rfl
  refine ⟨⟨by rw [hauto, totalHeightCalc_eq], by rw [hfix, totalHeightCalc_eq]⟩, ?_⟩
  intro hrest
  subst hrest
  rw [hauto, hfix]
  simp [totalHeightCalc]

theorem compose_height_eq_witness :
    (composeAutoWidth ⟨5, true⟩ [solidImage 2 3 inkPix]).height = 3 ∧
    (composeFixedWidth ⟨5, true⟩ [solidImage 2 3 inkPix]).height = 3 :=
  (compose_height_eq ⟨5, true⟩ (solidImage 2 3 inkPix) []).2 rfl

/-- C6: composing an empty page list fails with the Composition error
"Cannot compose empty image list", for every spacing and width policy.
The embedded compositor is a pure function of its configuration, so
repeated calls return this identical error and no state changes. -/
theorem compose_empty_fails (c : Compositor) :
    compose c [] =
      Except.error (PdfError.compositionError "Cannot compose empty image list") := rfl

theorem renderLoopAux_calls (rd : Renderer) (total : Nat) :
    ∀ (l : List Image) (idx : Nat),
      (renderLoopAux rd total idx l).2 =
        (List.range l.length).map (fun k => (idx + k, total)) ∧
      (renderLoopAux rd total idx l).1.length = l.length := by
  intro l
  induction l with
  | nil => intro idx; simp [renderLoopAux]
  | cons img rest ih =>
    intro idx
    obtain ⟨h2, h1⟩ := ih (idx + 1)
    constructor
    · show (idx, total) :: (renderLoopAux rd total (idx + 1) rest).2 = _
      rw [h2, List.length_cons, List.range_succ_eq_map, List.map_cons, List.map_map]
      simp only [Nat.add_zero]
      refine congrArg (List.cons (idx, total)) ?_
      apply List.map_congr_left
      intro a ha
      simp only [Function.comp_apply, Prod.mk.injEq]
      exact ⟨by omega, trivial⟩
    · show ((processPage rd img) :: (renderLoopAux rd total (idx + 1) rest).1).length = _
      simp [h1]

/-- C7: on a successfully rasterized document of `N` pages, the progress
callback sequence of the `render_pages` loop is exactly
`(1, N), (2, N), ..., (N, N)` — one call per completed page
normalization, 1-indexed, strictly increasing, `totalPages = N` on every
call — and `N` processed pages are produced. -/
theorem progress_calls_exact (rd : Renderer) (images : List Image) :
    (renderPagesFromImages rd images).2 =
      (List.range images.length).map (fun k => (k + 1, images.length)) ∧
    (renderPagesFromImages rd images).1.length = images.length := by
  obtain ⟨h2, h1⟩ := renderLoopAux_calls rd images.length images 1
  refine ⟨?_, h1⟩
  rw [renderPagesFromImages, h2]
  apply List.map_congr_left
  intro k _
  simp [Nat.add_comm]

/-- C10: page normalization never enlarges a bitmap: opacity flattening
preserves dimensions exactly, whitespace cropping only shrinks them, the
full per-page step never enlarges, and on a bitmap of positive size both
output dimensions stay at least 1. -/
theorem normalize_never_enlarges (rd : Renderer) (img : Image) :
    ((ensureWhiteBackground img).width = img.width ∧
      (ensureWhiteBackground img).height = img.height) ∧
    ((cropWhitespace rd img).width ≤ img.width ∧
      (cropWhitespace rd img).height ≤ img.height) ∧
    ((processPage rd img).width ≤ img.width ∧
      (processPage rd img).height ≤ img.height) ∧
    (1 ≤ img.width → 1 ≤ img.height →
      1 ≤ (processPage rd img).width ∧ 1 ≤ (processPage rd img).height) := by
  have hew : (ensureWhiteBackground img).width = img.width := by
    cases h : img.mode
    · simp [ensureWhiteBackground, h]
    · simp [ensureWhiteBackground, h, flattenWhite]
    · simp [ensureWhiteBackground, h, convertRGB]
  have heh : (ensureWhiteBackground img).height = img.height := by
    cases h : img.mode
    · simp [ensureWhiteBackground, h]
    · simp [ensureWhiteBackground, h, flattenWhite]
    · simp [ensureWhiteBackground, h, convertRGB]
  refine ⟨⟨hew, heh⟩, ⟨cropWhitespace_width_le rd img, cropWhitespace_height_le rd img⟩,
    ?_, ?_⟩
  · unfold processPage
    split_ifs with h
    · exact ⟨Nat.le_trans (cropWhitespace_width_le rd _) (Nat.le_of_eq hew),
        Nat.le_trans (cropWhitespace_height_le rd _) (Nat.le_of_eq heh)⟩
    · exact ⟨Nat.le_of_eq hew, Nat.le_of_eq heh⟩
  · intro hwp hhp
    simp only [processPage]
    split_ifs with h
    · exact cropWhitespace_dims_pos rd (ensureWhiteBackground img)
        (by rw [hew]; exact hwp) (by rw [heh]; exact hhp)
    · exact ⟨by rw [hew]; exact hwp, by rw [heh]; exact hhp⟩

theorem normalize_never_enlarges_witness :
    1 ≤ (solidImage 3 2 inkPix).width ∧ 1 ≤ (solidImage 3 2 inkPix).height ∧
    1 ≤ (processPage ⟨150, true, 10⟩ (solidImage 3 2 inkPix)).width ∧
    1 ≤ (processPage ⟨150, true, 10⟩ (solidImage 3 2 inkPix)).height := by
  have h := (normalize_never_enlarges ⟨150, true, 10⟩ (solidImage 3 2 inkPix)).2.2.2
    (by decide) (by decide)
  exact ⟨by decide, by decide, h.1, h.2⟩

/-- C4: normalization with autoCrop crops to the clamped expanded box, so
its output never extends past the original edges; and when the detector
reports no content — in particular on an all-background bitmap — the
bitmap is returned with dimensions and pixel contents unmodified. -/
theorem autocrop_allBackground_unchanged (rd : Renderer) (img : Image)
    (hmode : img.mode = Mode.RGB) :
    ((cropWhitespace rd img).width ≤ img.width ∧
      (cropWhitespace rd img).height ≤ img.height) ∧
    ((∀ x, x < img.width → ∀ y, y < img.height →
        isWhitePixel (img.pixel x y) 250 = true) →
      cropWhitespace rd img = img) :=
  ⟨⟨cropWhitespace_width_le rd img, cropWhitespace_height_le rd img⟩,
    fun hw => cropWhitespace_allWhite rd img hmode hw⟩

theorem autocrop_allBackground_unchanged_witness :
    cropWhitespace ⟨150, true, 10⟩ (solidImage 2 2 whitePix) =
      solidImage 2 2 whitePix :=
  (autocrop_allBackground_unchanged ⟨150, true, 10⟩ (solidImage 2 2 whitePix)
    rfl).2 (by decide)

/-- C3: on a bitmap with at least one non-background pixel (threshold
250; background = all three channels strictly above it), the four
boundary scans return the tightest half-open box: every non-background
pixel lies in `[left, right) × [top, bottom)`, and column `left`, column
`right - 1`, row `top` and row `bottom - 1` each contain at least one
non-background pixel. -/
theorem boundary_tightest_box (img : Image)
    (hc : ∃ x, x < img.width ∧ ∃ y, y < img.height ∧
      isWhitePixel (img.pixel x y) 250 = false) :
    (∀ x, x < img.width → ∀ y, y < img.height →
      isWhitePixel (img.pixel x y) 250 = false →
      findLeftBoundary img ≤ x ∧ x < findRightBoundary img ∧
      findTopBoundary img ≤ y ∧ y < findBottomBoundary img) ∧
    (∃ y, y < img.height ∧
      isWhitePixel (img.pixel (findLeftBoundary img) y) 250 = false) ∧
    (∃ y, y < img.height ∧
      isWhitePixel (img.pixel (findRightBoundary img - 1) y) 250 = false) ∧
    (∃ x, x < img.width ∧
      isWhitePixel (img.pixel x (findTopBoundary img)) 250 = false) ∧
    (∃ x, x < img.width ∧
      isWhitePixel (img.pixel x (findBottomBoundary img - 1)) 250 = false) := by
  obtain ⟨hl, hr, ht, hb, _, _, _, _, hbox⟩ := boundary_box_spec img hc
  exact ⟨hbox, (colNonWhite_iff img _).mp hl, (colNonWhite_iff img _).mp hr,
    (rowNonWhite_iff img _).mp ht, (rowNonWhite_iff img _).mp hb⟩

theorem boundary_tightest_box_witness :
    (∃ x, x < dotImage.width ∧ ∃ y, y < dotImage.height ∧
      isWhitePixel (dotImage.pixel x y) 250 = false) ∧
    (∃ y, y < dotImage.height ∧
      isWhitePixel (dotImage.pixel (findLeftBoundary dotImage) y) 250 = false) := by
  have hdot : ∃ x, x < dotImage.width ∧ ∃ y, y < dotImage.height ∧
      isWhitePixel (dotImage.pixel x y) 250 = false :=
    ⟨1, by decide, 1, by decide, by decide⟩
  exact ⟨hdot, (boundary_tightest_box dotImage hdot).2.1⟩

/-- C8: boundary detection is a fixed point under cropping: cropping a
bitmap with content to its detected content box with margin 0 and
re-running the four boundary scans on the result returns the box
`(0, 0, width, height)` of the whole cropped bitmap. -/
theorem boundary_fixed_point (rd : Renderer) (img : Image)
    (hm : rd.crop_margin = 0) (hmode : img.mode = Mode.RGB)
    (hc : ∃ x, x < img.width ∧ ∃ y, y < img.height ∧
      isWhitePixel (img.pixel x y) 250 = false) :
    findLeftBoundary (cropWhitespace rd img) = 0 ∧
    findTopBoundary (cropWhitespace rd img) = 0 ∧
    findRightBoundary (cropWhitespace rd img) = (cropWhitespace rd img).width ∧
    findBottomBoundary (cropWhitespace rd img) = (cropWhitespace rd img).height := by
  obtain ⟨hl, hr, ht, hb, hLR, hRW, hTB, hBH, hbox⟩ := boundary_box_spec img hc
  have hcrop := cropWhitespace_content_eq rd img hm hmode hc
  rw [hcrop]
  set L := findLeftBoundary img with hLdef
  set T := findTopBoundary img with hTdef
  set R := findRightBoundary img with hRdef
  set B := findBottomBoundary img with hBdef
  have hcol0 : colNonWhite (img.cropBox L T R B) 0 = true := by
    obtain ⟨y0, hy0, hw0⟩ := (colNonWhite_iff img L).mp hl
    obtain ⟨_, _, hT0, hB0⟩ := hbox L (by omega) y0 hy0 hw0
    refine (colNonWhite_iff _ 0).mpr ⟨y0 - T, ?_, ?_⟩
    · rw [cropBox_height]; omega
    · rw [cropBox_pixel, Nat.zero_add, Nat.sub_add_cancel hT0]; exact hw0
  have hcolR : colNonWhite (img.cropBox L T R B)
      ((img.cropBox L T R B).width - 1) = true := by
    obtain ⟨y1, hy1, hw1⟩ := (colNonWhite_iff img (R - 1)).mp hr
    obtain ⟨_, _, hT1, hB1⟩ := hbox (R - 1) (by omega) y1 hy1 hw1
    refine (colNonWhite_iff _ _).mpr ⟨y1 - T, ?_, ?_⟩
    · rw [cropBox_height]; omega
    · rw [cropBox_pixel, cropBox_width, Nat.sub_add_cancel hT1]
      have harg : R - L - 1 + L = R - 1 := by omega
      rw [harg]; exact hw1
  have hrow0 : rowNonWhite (img.cropBox L T R B) 0 = true := by
    obtain ⟨x0, hx0, hw0⟩ := (rowNonWhite_iff img T).mp ht
    obtain ⟨hL0, hR0, _, _⟩ := hbox x0 hx0 T (by omega) hw0
    refine (rowNonWhite_iff _ 0).mpr ⟨x0 - L, ?_, ?_⟩
    · rw [cropBox_width]; omega
    · rw [cropBox_pixel, Nat.zero_add, Nat.sub_add_cancel hL0]; exact hw0
  have hrowB : rowNonWhite (img.cropBox L T R B)
      ((img.cropBox L T R B).height - 1) = true := by
    obtain ⟨x1, hx1, hw1⟩ := (rowNonWhite_iff img (B - 1)).mp hb
    obtain ⟨hL1, hR1, _, _⟩ := hbox x1 hx1 (B - 1) (by omega) hw1
    refine (rowNonWhite_iff _ _).mpr ⟨x1 - L, ?_, ?_⟩
    · rw [cropBox_width]; omega
    · rw [cropBox_pixel, cropBox_height, Nat.sub_add_cancel hL1]
      have harg : B - T - 1 + T = B - 1 := by omega
      rw [harg]; exact hw1
  refine ⟨?_, ?_, ?_, ?_⟩
  · simp only [findLeftBoundary]
    rw [findFrom_first _ _ _ hcol0 (by rw [cropBox_width]; omega)]
    rfl
  · simp only [findTopBoundary]
    rw [findFrom_first _ _ _ hrow0 (by rw [cropBox_height]; omega)]
    rfl
  · simp only [findRightBoundary]
    rw [findDown_first _ _ _ hcolR (by rw [cropBox_width]; omega)]
    show (img.cropBox L T R B).width - 1 + 1 = (img.cropBox L T R B).width
    rw [cropBox_width]
    omega
  · simp only [findBottomBoundary]
    rw [findDown_first _ _ _ hrowB (by rw [cropBox_height]; omega)]
    show (img.cropBox L T R B).height - 1 + 1 = (img.cropBox L T R B).height
    rw [cropBox_height]
    omega

theorem boundary_fixed_point_witness :
    findLeftBoundary (cropWhitespace ⟨150, true, 0⟩ dotImage) = 0 ∧
    findTopBoundary (cropWhitespace ⟨150, true, 0⟩ dotImage) = 0 ∧
    findRightBoundary (cropWhitespace ⟨150, true, 0⟩ dotImage) =
      (cropWhitespace ⟨150, true, 0⟩ dotImage).width ∧
    findBottomBoundary (cropWhitespace ⟨150, true, 0⟩ dotImage) =
      (cropWhitespace ⟨150, true, 0⟩ dotImage).height :=
  boundary_fixed_point ⟨150, true, 0⟩ dotImage rfl rfl
    ⟨1, by decide, 1, by decide, by decide⟩

/-- C2: AutoWidth composition allocates the maximum page width, pastes
flush-left and trims to the rightmost non-background column of the whole
composed canvas, so the final width never exceeds the maximum page
width, and equals it whenever some page has non-background content in
column `maxWidth - 1`. -/
theorem autoWidth_trim (c : Compositor) (img : Image) (rest : List Image) :
    (composeAutoWidth c (img :: rest)).width ≤ maxWidth (img :: rest) ∧
    (∀ i (hi : i < (img :: rest).length) (y : Nat),
      y < ((img :: rest).get ⟨i, hi⟩).height →
      maxWidth (img :: rest) - 1 < ((img :: rest).get ⟨i, hi⟩).width →
      isWhitePixel
          (((img :: rest).get ⟨i, hi⟩).pixel (maxWidth (img :: rest) - 1) y) 250
        = false →
      (composeAutoWidth c (img :: rest)).width = maxWidth (img :: rest)) := by
  constructor
  · simp only [composeAutoWidth]
    split_ifs with h
    · rw [cropBox_width]; omega
    · rw [pasteLoop_width]; rfl
  · intro i hi y hy hwi hnw
    have hwle := width_le_maxWidth (img :: rest) i hi
    have hW1 : 1 ≤ maxWidth (img :: rest) := by omega
    have hband := pasteLoop_band_pixel c.spacing (fun _ _ => 0) (img :: rest)
      (Image.new (maxWidth (img :: rest)) (totalHeightCalc c.spacing (img :: rest))
        ⟨255, 255, 255⟩) 0 i hi (maxWidth (img :: rest) - 1) y hwi hy
    simp only [Nat.zero_add] at hband
    set cv := pasteLoop c.spacing (fun _ _ => 0)
      (Image.new (maxWidth (img :: rest)) (totalHeightCalc c.spacing (img :: rest))
        ⟨255, 255, 255⟩) (img :: rest) 0 with hcv
    have hcvw : cv.width = maxWidth (img :: rest) := by
      rw [hcv, pasteLoop_width]; rfl
    have hcvh : cv.height = totalHeightCalc c.spacing (img :: rest) := by
      rw [hcv, pasteLoop_height]; rfl
    have hcvm : cv.mode = Mode.RGB := by
      rw [hcv, pasteLoop_mode]; rfl
    have hcolW : colNonWhite cv (maxWidth (img :: rest) - 1) = true := by
      refine (colNonWhite_iff _ _).mpr
        ⟨bandTop c.spacing (img :: rest) i + y, ?_, ?_⟩
      · rw [hcvh]
        have := bandTop_add_height_le c.spacing (img :: rest) i hi
        omega
      · rw [hband]; exact hnw
    have hact : findActualWidth cv = maxWidth (img :: rest) := by
      simp only [findActualWidth]
      rw [convertRGB_rgb cv hcvm, hcvw]
      rw [findDown_first _ _ _ hcolW (by omega)]
      show maxWidth (img :: rest) - 1 + 1 = maxWidth (img :: rest)
      omega
    simp only [composeAutoWidth]
    rw [← hcv, hact, if_neg (lt_irrefl _)]
    exact hcvw

theorem autoWidth_trim_witness :
    (composeAutoWidth ⟨0, true⟩ [solidImage 2 1 inkPix]).width =
      maxWidth [solidImage 2 1 inkPix] :=
  (autoWidth_trim ⟨0, true⟩ (solidImage 2 1 inkPix) []).2 0 (by decide) 0
    (by decide) (by decide) (by decide)

/-- C9: AutoWidth composition of a non-empty sequence of pages that are
entirely background (all channels above 250 everywhere) trims the canvas
to width exactly 1 while keeping the full computed height. -/
theorem autoWidth_allBackground (c : Compositor) (img : Image) (rest : List Image)
    (hw : ∀ im ∈ img :: rest, 1 ≤ im.width)
    (hbg : ∀ im ∈ img :: rest, ∀ x, x < im.width → ∀ y, y < im.height →
      isWhitePixel (im.pixel x y) 250 = true) :
    (composeAutoWidth c (img :: rest)).width = 1 ∧
    (composeAutoWidth c (img :: rest)).height =
      totalHeightCalc c.spacing (img :: rest) := by
  have hW1 : 1 ≤ maxWidth (img :: rest) := by
    have h1 := hw img (List.mem_cons_self img rest)
    have h2 : img.width ≤ maxWidth (img :: rest) := Nat.le_max_left _ _
    omega
  have hwhite := pasteLoop_allWhite c.spacing (fun _ _ => 0) (img :: rest)
    (Image.new (maxWidth (img :: rest)) (totalHeightCalc c.spacing (img :: rest))
      ⟨255, 255, 255⟩) 0 (fun _ _ => rfl) hbg
  set cv := pasteLoop c.spacing (fun _ _ => 0)
    (Image.new (maxWidth (img :: rest)) (totalHeightCalc c.spacing (img :: rest))
      ⟨255, 255, 255⟩) (img :: rest) 0 with hcv
  have hcvw : cv.width = maxWidth (img :: rest) := by
    rw [hcv, pasteLoop_width]; rfl
  have hcvh : cv.height = totalHeightCalc c.spacing (img :: rest) := by
    rw [hcv, pasteLoop_height]; rfl
  have hcvm : cv.mode = Mode.RGB := by
    rw [hcv, pasteLoop_mode]; rfl
  have hcol : ∀ x, colNonWhite cv x = false := by
    intro x
    cases hcx : colNonWhite cv x with
    | false => rfl
    | true =>
      obtain ⟨y, hy, hww⟩ := (colNonWhite_iff cv x).mp hcx
      exact absurd (hwhite x y) (by simp [hww])
  have hact : findActualWidth cv = 1 := by
    simp only [findActualWidth]
    rw [convertRGB_rgb cv hcvm, hcvw]
    cases hfd : findDown (colNonWhite cv) (maxWidth (img :: rest) - 1)
        (maxWidth (img :: rest)) with
    | none => rfl
    | some x =>
      obtain ⟨hp, _, _⟩ := findDown_some _ _ _ _ hfd
      exact absurd (hcol x) (by simp [hp])
  constructor
  · simp only [composeAutoWidth]
    rw [← hcv, hact]
    by_cases hWgt : 1 < maxWidth (img :: rest)
    · rw [if_pos hWgt, cropBox_width]
    · rw [if_neg hWgt, hcvw]; omega
  · simp only [composeAutoWidth]
    rw [← hcv, hact]
    split_ifs with h
    · rw [cropBox_height, Nat.sub_zero]
    · exact hcvh

theorem autoWidth_allBackground_witness :
    (composeAutoWidth ⟨0, true⟩ [solidImage 3 2 whitePix]).width = 1 ∧
    (composeAutoWidth ⟨0, true⟩ [solidImage 3 2 whitePix]).height = 2 := by
  have h := autoWidth_allBackground ⟨0, true⟩ (solidImage 3 2 whitePix) []
    (by decide) (by decide)
  exact ⟨h.1, by rw [h.2]; decide⟩

/-- C5: FixedWidth composition pastes page `i` at x-offset
`(canvas_width - page_width) / 2` while advancing the vertical cursor by
each page's height plus the spacing: the canvas has the maximum page
width and the computed total height, and inside page `i`'s vertical band
the canvas shows page `i`'s pixels at the centering offset. -/
theorem fixedWidth_centered (c : Compositor) (img : Image) (rest : List Image) :
    (composeFixedWidth c (img :: rest)).width = maxWidth (img :: rest) ∧
    (composeFixedWidth c (img :: rest)).height =
      totalHeightCalc c.spacing (img :: rest) ∧
    (∀ i (hi : i < (img :: rest).length) (dx dy : Nat),
      dx < ((img :: rest).get ⟨i, hi⟩).width →
      dy < ((img :: rest).get ⟨i, hi⟩).height →
      (composeFixedWidth c (img :: rest)).pixel
          ((maxWidth (img :: rest) - ((img :: rest).get ⟨i, hi⟩).width) / 2 + dx)
          (bandTop c.spacing (img :: rest) i + dy)
        = ((img :: rest).get ⟨i, hi⟩).pixel dx dy) := by
  refine ⟨?_, ?_, ?_⟩
  · simp only [composeFixedWidth, calculateCanvasSize]
    rw [pasteLoop_width]; rfl
  · simp only [composeFixedWidth, calculateCanvasSize]
    rw [pasteLoop_height]; rfl
  · intro i hi dx dy hdx hdy
    have hband := pasteLoop_band_pixel c.spacing (fun w im => (w - im.width) / 2)
      (img :: rest)
      (Image.new (maxWidth (img :: rest)) (totalHeightCalc c.spacing (img :: rest))
        ⟨255, 255, 255⟩) 0 i hi dx dy hdx hdy
    rw [Nat.zero_add] at hband
    exact hband

theorem fixedWidth_centered_witness :
    (composeFixedWidth ⟨0, false⟩ pagesDemo).width = 150 ∧
    (composeFixedWidth ⟨0, false⟩ pagesDemo).height = 150 ∧
    (composeFixedWidth ⟨0, false⟩ pagesDemo).pixel 25 0 = redPix ∧
    (composeFixedWidth ⟨0, false⟩ pagesDemo).pixel 35 110 = bluePix := by
  have h := fixedWidth_centered ⟨0, false⟩ (solidImage 100 50 redPix)
    [solidImage 150 60 greenPix, solidImage 80 40 bluePix]
  refine ⟨?_, ?_, ?_, ?_⟩
  · simp only [pagesDemo]
    rw [h.1]
    decide
  · simp only [pagesDemo]
    rw [h.2.1]
    decide
  · exact h.2.2 0 (by decide) 0 0 (by decide) (by decide)
  · exact h.2.2 2 (by decide) 0 0 (by decide) (by decide)

end PdfLong
